import Mathlib

/-!
Shallow embedding of `core/outlookmail_client.py` (class `OutlookMailClient`).

External effects are modelled as oracle inputs:
* the paginated `GET /accounts` endpoint is a finite list of page responses
  (`PageResult`): `err` is a non-200 status or a raised request exception,
  `ok accounts` is a decoded JSON page;
* the `GET /emails/by-email/...` endpoint is an `Except String EmailsResponse`
  (`.error` models a raised request exception, `.json` models the outcome of
  the `res.json()` call, which may itself raise);
* the collaborator `extract_verification_code` (in `core/mail_utils`, out of
  scope per the project docs) is a parameter `extract`; in the `Except` layer
  it may raise;
* `datetime.fromisoformat(rt.replace("Z", "+00:00")).astimezone().replace(tzinfo=None)`
  is a parameter `parseTime : String → Option Int` (`none` models a raised
  parse exception, `some t` the resulting timestamp on a linear time line);
* `time.sleep(interval)` raises `ValueError` on a negative argument (the
  error branch of `pollLoop`); the loop additionally counts performed
  sleeps and performed `fetch_verification_code` calls so that scheduling
  claims are statable.

Python truthiness of `str`/`Optional[str]`/`list` values is modelled
explicitly (`isFalsyEmail`, `codeTruthy`, `List.isEmpty`, `length = 0`).
Python `//` on `int` is `Int.fdiv` (floor division), with the zero-divisor
`ZeroDivisionError` modelled explicitly since `Int.fdiv _ 0 = 0` would hide
it. Uncaught exceptions are the `.error` constructor of `Except`; each
`try/except` of the source is an explicit `match` on the possibly-throwing
part.
-/

namespace OutlookMail

/-- One entry of the account pool: a decoded JSON object whose `id` and
`email` fields are read with `dict.get` and may therefore be absent. -/
structure Account where
  id : Option Int
  email : Option String
deriving DecidableEq, Repr

/-- One inbox message as decoded from the listing endpoint; every field is
read with `dict.get` and may be absent. `received_time` is the raw ISO-8601
string. -/
structure Message where
  subject : Option String
  body : Option String
  body_preview : Option String
  received_time : Option String
deriving DecidableEq, Repr

/-- The per-instance session state: `self.email` and `self.account_id`. -/
structure Session where
  email : Option String
  account_id : Option Int
deriving DecidableEq, Repr

/-- The class-wide shared state: `OutlookMailClient._account_index` and
`OutlookMailClient._accounts_cache`. The index starts at 0 and is only ever
assigned values of the form `(index + 1) % total`, so it is a `Nat`. -/
structure ClassState where
  account_index : Nat
  accounts_cache : List Account
deriving DecidableEq, Repr

/-- One response of the paginated accounts endpoint: `err` models a non-200
status or a raised exception (both `break`), `ok` a decoded JSON page
(`res.json() if res.content else []`). -/
inductive PageResult where
  | err : PageResult
  | ok : List Account → PageResult
deriving DecidableEq, Repr

/-- The `page_size = 100` constant of `_fetch_accounts`. -/
def pageSize : Nat := 100

/-- Embedding of `OutlookMailClient._fetch_accounts`. The argument is the
finite sequence of successive page responses the server would give; the
loop consumes one per iteration. An error page stops the pagination and the
accounts accumulated from earlier pages are kept (in the recursion this is
the `accounts ++ ...` shape with the recursive call returning `[]`). An
empty page stops with what was accumulated; a short page (fewer than
`pageSize` entries) is consumed and then stops. An exhausted response list
corresponds to the request raising (no further response), i.e. to `err`. -/
def fetchAccounts : List PageResult → List Account
  | [] => []
  | PageResult.err :: _ => []
  | PageResult.ok accounts :: rest =>
    if accounts.length = 0 then []
    else if accounts.length < pageSize then accounts
    else accounts ++ fetchAccounts rest

/-- Embedding of `OutlookMailClient.register_account`. It first overwrites
the class-wide cache with the fetch result (this happens before the
emptiness test, so it happens on the failure path too), returns `false` on
an empty pool leaving the session and the index untouched, and otherwise
selects `cache[index % total]`, stores that account's `email`/`id` fields
in the session, advances the class-wide index to `(index + 1) % total` and
returns `true`. -/
def register_account (cs : ClassState) (s : Session) (pages : List PageResult) :
    ClassState × Session × Bool :=
  if h : (fetchAccounts pages).length = 0 then
    ({ cs with accounts_cache := fetchAccounts pages }, s, false)
  else
    ({ account_index :=
         (cs.account_index % (fetchAccounts pages).length + 1) % (fetchAccounts pages).length,
       accounts_cache := fetchAccounts pages },
     { email :=
         ((fetchAccounts pages).get
           ⟨cs.account_index % (fetchAccounts pages).length,
            Nat.mod_lt _ (Nat.pos_of_ne_zero h)⟩).email,
       account_id :=
         ((fetchAccounts pages).get
           ⟨cs.account_index % (fetchAccounts pages).length,
            Nat.mod_lt _ (Nat.pos_of_ne_zero h)⟩).id },
     true)

/-- Iterated registration against a fixed server behaviour: `registerIter
pages k st` is the class/session state after `k` successive
`register_account` calls starting from `st`. -/
def registerIter (pages : List PageResult) : Nat → ClassState × Session → ClassState × Session
  | 0, st => st
  | k + 1, st =>
    registerIter pages k
      ((register_account st.1 st.2 pages).1, (register_account st.1 st.2 pages).2.1)

/-- The decoded JSON body of the listing endpoint: the truthiness of the
`success` field and the (possibly absent) `emails` field. -/
structure Payload where
  success : Bool
  emails : Option (List Message)
deriving Repr

/-- The raw listing response: HTTP status, whether `res.content` is
non-empty, and the outcome of `res.json()` (which may raise). -/
structure EmailsResponse where
  status : Nat
  hasContent : Bool
  json : Except String Payload

/-- Embedding of `OutlookMailClient._list_emails`. A raised exception
(`.error` response), a non-200 status, a raised JSON decode, or a falsy
`success` flag all yield `[]`; otherwise the result is
`list(body.get("emails") or [])`. The function is total: no branch
propagates an error. -/
def list_emails (resp : Except String EmailsResponse) : List Message :=
  match resp with
  | .error _ => []
  | .ok r =>
    if r.status ≠ 200 then []
    else
      match (if r.hasContent then r.json else .ok { success := false, emails := none }) with
      | .error _ => []
      | .ok body => if !body.success then [] else body.emails.getD []

/-- The sort key of `sorted(emails, key=lambda x: x.get("received_time") or "", ...)`:
a missing (or null) `received_time` contributes the empty string. -/
def msgKey (m : Message) : String := (m.received_time).getD ""

/-- Lexicographic code-point comparison of character lists; this is how
Python compares `str` values. -/
def charsLe : List Char → List Char → Bool
  | [], _ => true
  | _ :: _, [] => false
  | a :: as, b :: bs => if a < b then true else if b < a then false else charsLe as bs

/-- Python `<=` on strings: lexicographic by Unicode code point. -/
def strLe (a b : String) : Bool := charsLe a.data b.data

/-- Stable insertion of a message into a list sorted by descending key:
`m` goes in front of the first element whose key is `<=` its own, so among
equal keys the earlier-inserted (originally later) elements stay behind. -/
def insertByKeyDesc (m : Message) : List Message → List Message
  | [] => [m]
  | y :: ys => if strLe (msgKey y) (msgKey m) then m :: y :: ys else y :: insertByKeyDesc m ys

/-- Embedding of `sorted(emails, key=lambda x: x.get("received_time") or "",
reverse=True)`: a stable sort by descending key (Python's `sorted` is
stable, and `reverse=True` keeps equal-key elements in original order). -/
def sortEmailsDesc : List Message → List Message
  | [] => []
  | m :: ms => insertByKeyDesc m (sortEmailsDesc ms)

/-- The text handed to the extractor: `(msg.get("body") or "") +
(msg.get("body_preview") or "")`. -/
def msgContent (m : Message) : String := (m.body).getD "" ++ (m.body_preview).getD ""

/-- Python truthiness of the extractor's `Optional[str]` result: `None` and
`""` are falsy. -/
def codeTruthy : Option String → Bool
  | none => false
  | some c => !c.isEmpty

/-- Python truthiness test `not self.email`: unset (`None`) or empty email. -/
def isFalsyEmail : Option String → Bool
  | none => true
  | some e => e.isEmpty

/-- The `since_time` filter of `fetch_verification_code`: a message is
skipped iff a `since_time` was given, the message has a truthy
`received_time`, that string parses, and the parsed timestamp is strictly
earlier. A missing or empty `received_time`, or a raised parse
(`parseTime _ = none`), means the message is NOT skipped (`except: pass`). -/
def shouldSkip (parseTime : String → Option Int) (since : Option Int) (m : Message) : Bool :=
  match since with
  | none => false
  | some t =>
    match m.received_time with
    | none => false
    | some rt =>
      if rt.isEmpty then false
      else
        match parseTime rt with
        | none => false
        | some mt => decide (mt < t)

/-- The scanning loop of `fetch_verification_code`: walk the (already
sorted) messages, skip per `shouldSkip`, run the extractor on
`msgContent`, and return at the first truthy code. A raised extractor
propagates (to be caught by the operation's outer `try`). -/
def scanEmails (extract : String → Except String (Option String))
    (parseTime : String → Option Int) (since : Option Int) :
    List Message → Except String (Option String)
  | [] => .ok none
  | m :: rest =>
    if shouldSkip parseTime since m then scanEmails extract parseTime since rest
    else
      match extract (msgContent m) with
      | .error e => .error e
      | .ok code => if codeTruthy code then .ok code else scanEmails extract parseTime since rest

/-- Embedding of `OutlookMailClient.fetch_verification_code`. A falsy email
returns `none` before the `try` block; otherwise the listing result is
scanned (empty inbox gives `none`) and the outer `except` converts any
escaped exception into `.ok none`. -/
def fetch_verification_code (extract : String → Except String (Option String))
    (parseTime : String → Option Int) (s : Session)
    (resp : Except String EmailsResponse) (since : Option Int) :
    Except String (Option String) :=
  if isFalsyEmail s.email then .ok none
  else
    match (if (list_emails resp).isEmpty then .ok none
           else scanEmails extract parseTime since (sortEmailsDesc (list_emails resp))) with
    | .ok v => .ok v
    | .error _ => .ok none

/-- The retry loop of `poll_for_code` (`for i in range(1, max_retries + 1)`),
instrumented with a sleep counter and a counter of performed
`fetch_verification_code` calls. `results i` is the outcome the `i`-th
fetch call would produce (the fetch operation itself is proven total, so an
`Option String` outcome is faithful). A truthy code returns immediately; on
the last attempt (`remaining = 0` after this one) there is no sleep; a
sleep with a negative interval models `time.sleep` raising `ValueError`,
which nothing in `poll_for_code` catches. -/
def pollLoop (results : Nat → Option String) (interval : Int) :
    Nat → Nat → Nat → Nat → Except String (Option String × Nat × Nat)
  | _, sleeps, calls, 0 => .ok (none, sleeps, calls)
  | attempt, sleeps, calls, remaining + 1 =>
    if codeTruthy (results attempt) then .ok (results attempt, sleeps, calls + 1)
    else if remaining = 0 then .ok (none, sleeps, calls + 1)
    else if interval < 0 then .error "ValueError"
    else pollLoop results interval (attempt + 1) (sleeps + 1) (calls + 1) remaining

/-- Embedding of `OutlookMailClient.poll_for_code`. A falsy email returns
`none` first; then `max_retries = max(1, timeout // interval)` is computed
(Python floor division; `interval = 0` raises `ZeroDivisionError`, which no
handler in `poll_for_code` catches), and the loop runs. The result carries
(code, performed sleeps, performed fetch calls). -/
def poll_for_code (s : Session) (results : Nat → Option String)
    (timeout interval : Int) : Except String (Option String × Nat × Nat) :=
  if isFalsyEmail s.email then .ok (none, 0, 0)
  else if interval = 0 then .error "ZeroDivisionError"
  else pollLoop results interval 1 0 0 (max 1 (Int.fdiv timeout interval)).toNat

/-- Specification-side description of the scan (from the spec's words):
the first truthy code among the listed messages, in list order, for a pure
extractor. Compared against `fetch_verification_code` in the refinement
theorems. -/
def firstCodeSpec (ex : String → Option String) : List Message → Option String
  | [] => none
  | m :: rest => if codeTruthy (ex (msgContent m)) then ex (msgContent m) else firstCodeSpec ex rest

/-- Test fixture: the older of two messages, the one whose body carries a
code. -/
def demoOlder : Message :=
  { subject := some "s1", body := some "Your code is 123456", body_preview := some "",
    received_time := some "2026-01-01T10:00:00Z" }

/-- Test fixture: the newer of two messages, with no code in its body. -/
def demoNewer : Message :=
  { subject := some "s2", body := some "hello there", body_preview := some "",
    received_time := some "2026-01-02T10:00:00Z" }

/-- Test fixture: an extractor that finds a code only in `demoOlder`'s
concatenated body text. -/
def demoExtract (t : String) : Option String :=
  if t = msgContent demoOlder then some "123456" else none

/-- Test fixture: a successful listing response carrying `demoOlder` before
`demoNewer`, so that only the descending sort puts the newer one first. -/
def demoResp : Except String EmailsResponse :=
  Except.ok { status := 200, hasContent := true,
              json := Except.ok { success := true, emails := some [demoOlder, demoNewer] } }

/-- Test fixture: message stamped `T1` (parses to timestamp 1). -/
def demoT1 : Message :=
  { subject := none, body := some "b1", body_preview := none, received_time := some "T1" }

/-- Test fixture: message stamped `T2` (parses to timestamp 2). -/
def demoT2 : Message :=
  { subject := none, body := some "b2", body_preview := none, received_time := some "T2" }

/-- Test fixture: message stamped `T3` (parses to timestamp 3). -/
def demoT3 : Message :=
  { subject := none, body := some "b3", body_preview := none, received_time := some "T3" }

/-- Test fixture: timestamp parser for the `T1 < T2 < T3` scenario; parses
nothing else (in particular not the empty string). -/
def demoParse (s : String) : Option Int :=
  if s = "T1" then some 1 else if s = "T2" then some 2 else if s = "T3" then some 3 else none

/-- Test fixture: a successful listing response carrying the three stamped
messages in ascending order. -/
def demoSinceResp : Except String EmailsResponse :=
  Except.ok { status := 200, hasContent := true,
              json := Except.ok { success := true, emails := some [demoT1, demoT2, demoT3] } }

/-- Test fixture: a server behaviour whose single page holds a two-account
pool. -/
def demoPages : List PageResult :=
  [PageResult.ok [{ id := some 1, email := some "a" }, { id := some 2, email := some "b" }]]

/-! ## Helper lemmas about registration -/

/-- Shape of a successful `register_account` call: the selected position is
the stored index modulo the pool size, the session receives that account's
fields, the cache is replaced, and the index advances by one (wrapping). -/
theorem register_account_spec (cs : ClassState) (s : Session) (pages : List PageResult)
    (h : (fetchAccounts pages).length ≠ 0) :
    register_account cs s pages =
      ({ account_index :=
           (cs.account_index % (fetchAccounts pages).length + 1) % (fetchAccounts pages).length,
         accounts_cache := fetchAccounts pages },
       { email :=
           ((fetchAccounts pages).get
             ⟨cs.account_index % (fetchAccounts pages).length,
              Nat.mod_lt _ (Nat.pos_of_ne_zero h)⟩).email,
         account_id :=
           ((fetchAccounts pages).get
             ⟨cs.account_index % (fetchAccounts pages).length,
              Nat.mod_lt _ (Nat.pos_of_ne_zero h)⟩).id },
       true) := by
  unfold register_account
  rw [dif_neg h]

/-- Under a fixed server behaviour with a nonempty pool, the class-wide
index after `k` further calls is, modulo the pool size, the starting index
plus `k`. -/
theorem registerIter_index (pages : List PageResult)
    (h : (fetchAccounts pages).length ≠ 0) :
    ∀ (k : Nat) (st : ClassState × Session),
      (registerIter pages k st).1.account_index % (fetchAccounts pages).length
        = (st.1.account_index + k) % (fetchAccounts pages).length := by
  intro k
  induction k with
  | zero => intro st; simp [registerIter]
  | succ n ih =>
    intro st
    have hstep := register_account_spec st.1 st.2 pages h
    show (registerIter pages (n + 1) st).1.account_index % (fetchAccounts pages).length = _
    rw [registerIter, ih, hstep]
    simp only
    rw [Nat.mod_add_mod, Nat.add_assoc, Nat.mod_add_mod]
    congr 1
    omega

/-! ## C9, C10, C2, C5, C8 -/

/-- C9: whenever the fetched pool is nonempty, `register_account` succeeds,
replaces the cache, selects position `stored index % current pool size`
(the session receives that account's fields), and the stored index after
the call is `(index % size + 1) % size`, hence always in `[0, size)`; the
starting index is arbitrary, so selection cycles over whatever pool was
last fetched. -/
theorem c9_index_always_modulo (cs : ClassState) (s : Session) (pages : List PageResult)
    (h : fetchAccounts pages ≠ []) :
    (register_account cs s pages).2.2 = true ∧
    (register_account cs s pages).1.accounts_cache = fetchAccounts pages ∧
    (register_account cs s pages).1.account_index =
      (cs.account_index % (fetchAccounts pages).length + 1) % (fetchAccounts pages).length ∧
    (register_account cs s pages).1.account_index < (fetchAccounts pages).length ∧
    ∃ hlt : cs.account_index % (fetchAccounts pages).length < (fetchAccounts pages).length,
      (register_account cs s pages).2.1 =
        { email := ((fetchAccounts pages).get
            ⟨cs.account_index % (fetchAccounts pages).length, hlt⟩).email,
          account_id := ((fetchAccounts pages).get
            ⟨cs.account_index % (fetchAccounts pages).length, hlt⟩).id } := by
  have h0 : (fetchAccounts pages).length ≠ 0 := by
    simpa [List.length_eq_zero] using h
  have hpos : 0 < (fetchAccounts pages).length := Nat.pos_of_ne_zero h0
  rw [register_account_spec cs s pages h0]
  exact ⟨rfl, rfl, rfl, Nat.mod_lt _ hpos, Nat.mod_lt _ hpos, rfl⟩

/-- Witness for C9 at a concrete two-account pool and starting index 3. -/
theorem c9_witness :
    fetchAccounts [PageResult.ok [{ id := some 1, email := some "a" },
                                  { id := some 2, email := some "b" }]] ≠ [] ∧
    (register_account { account_index := 3, accounts_cache := [] }
        { email := none, account_id := none }
        [PageResult.ok [{ id := some 1, email := some "a" },
                        { id := some 2, email := some "b" }]]).1.account_index <
      (fetchAccounts [PageResult.ok [{ id := some 1, email := some "a" },
                                     { id := some 2, email := some "b" }]]).length :=
  ⟨by decide, (c9_index_always_modulo _ _ _ (by decide)).2.2.2.1⟩

/-- C10: when the fetch yields an empty pool, `register_account` returns
`false`, leaves the session's email/account id and the index untouched, but
still replaces the class-wide cache with the empty fetch result. -/
theorem c10_failed_register_keeps_session (cs : ClassState) (s : Session)
    (pages : List PageResult) (hf : fetchAccounts pages = []) :
    register_account cs s pages = ({ cs with accounts_cache := [] }, s, false) := by
  unfold register_account
  rw [dif_pos (by simp [hf])]
  rw [hf]

/-- Witness for C10: an erroring first page erases a previously nonempty
cache while session and index survive. -/
theorem c10_witness :
    fetchAccounts [PageResult.err] = [] ∧
    register_account { account_index := 5, accounts_cache := [{ id := some 9, email := some "z" }] }
        { email := some "x", account_id := some 2 } [PageResult.err] =
      ({ account_index := 5, accounts_cache := [] },
       { email := some "x", account_id := some 2 }, false) :=
  ⟨rfl, c10_failed_register_keeps_session _ _ _ rfl⟩

/-- C2: `register_account` returns `false` exactly when the fetched pool is
empty; an error page after a full page stops pagination but keeps the
earlier page's accounts, and such an interrupted fetch still registers
successfully. -/
theorem c2_register_false_iff_empty_pool (cs : ClassState) (s : Session) :
    (∀ pages, ((register_account cs s pages).2.2 = false ↔ fetchAccounts pages = [])) ∧
    (∀ (accounts : List Account) (rest : List PageResult), accounts.length = pageSize →
        fetchAccounts (PageResult.ok accounts :: PageResult.err :: rest) = accounts) ∧
    (∀ (accounts : List Account) (rest : List PageResult), accounts.length = pageSize →
        (register_account cs s (PageResult.ok accounts :: PageResult.err :: rest)).2.2 = true) := by
  have hpage : ∀ (accounts : List Account) (rest : List PageResult), accounts.length = pageSize →
      fetchAccounts (PageResult.ok accounts :: PageResult.err :: rest) = accounts := by
    intro accounts rest hlen
    unfold fetchAccounts
    rw [if_neg (by simp [hlen, pageSize]), if_neg (by simp [hlen])]
    simp [fetchAccounts]
  refine ⟨?_, hpage, ?_⟩
  · intro pages
    by_cases h : (fetchAccounts pages).length = 0
    · have he : fetchAccounts pages = [] := List.length_eq_zero.mp h
      unfold register_account
      rw [dif_pos h]
      simp [he]
    · have he : fetchAccounts pages ≠ [] := fun hc => h (by simp [hc])
      unfold register_account
      rw [dif_neg h]
      simp [he]
  · intro accounts rest hlen
    have hf := hpage accounts rest hlen
    have h0 : (fetchAccounts (PageResult.ok accounts :: PageResult.err :: rest)).length ≠ 0 := by
      rw [hf, hlen]
      simp [pageSize]
    rw [register_account_spec _ _ _ h0]

/-- Witness for C2 at a full first page followed by an error page. -/
theorem c2_witness :
    (List.replicate pageSize ({ id := some 1, email := some "e" } : Account)).length = pageSize ∧
    (register_account { account_index := 0, accounts_cache := [] }
        { email := none, account_id := none }
        (PageResult.ok (List.replicate pageSize { id := some 1, email := some "e" }) ::
          PageResult.err :: [])).2.2 = true :=
  ⟨by simp, (c2_register_false_iff_empty_pool _ _).2.2 _ _ (by simp)⟩

/-- C5: with no selected email, `fetch_verification_code` returns `none`
whatever the extractor, the time parser, the listing response, the account
fields, or the `since` filter are. -/
theorem c5_unset_email_yields_none (extract : String → Except String (Option String))
    (parseTime : String → Option Int) (s : Session)
    (resp : Except String EmailsResponse) (since : Option Int)
    (hs : s.email = none) :
    fetch_verification_code extract parseTime s resp since = Except.ok none := by
  simp [fetch_verification_code, hs, isFalsyEmail]

/-- Witness for C5 on a fresh session and an erroring transport. -/
theorem c5_witness :
    (({ email := none, account_id := some 7 } : Session)).email = none ∧
    fetch_verification_code (fun _ => Except.ok (some "999999")) (fun _ => some 0)
      { email := none, account_id := some 7 } (Except.error "boom") (some 5) = Except.ok none :=
  ⟨rfl, c5_unset_email_yields_none _ _ _ _ _ rfl⟩

/-- C8: the email-listing operation returns `[]` on a raised request, on a
non-200 status, on empty response content, on a raised JSON decode, and on
a falsy `success` flag; on a successful payload it returns the payload's
`emails` list (`[]` when the field is absent). It is a total function: no
branch propagates an error. -/
theorem c8_list_emails_total :
    (∀ e, list_emails (Except.error e) = []) ∧
    (∀ r : EmailsResponse, r.status ≠ 200 → list_emails (Except.ok r) = []) ∧
    (∀ j, list_emails (Except.ok ⟨200, false, j⟩) = []) ∧
    (∀ e, list_emails (Except.ok ⟨200, true, Except.error e⟩) = []) ∧
    (∀ em, list_emails (Except.ok ⟨200, true, Except.ok ⟨false, em⟩⟩) = []) ∧
    (∀ ems, list_emails (Except.ok ⟨200, true, Except.ok ⟨true, some ems⟩⟩) = ems) ∧
    (list_emails (Except.ok ⟨200, true, Except.ok ⟨true, none⟩⟩) = []) := by
  refine ⟨fun e => rfl, ?_, fun j => rfl, fun e => rfl, fun em => rfl, fun ems => rfl, rfl⟩
  intro r hr
  simp [list_emails, hr]

/-- Witness for C8 at a 500 response. -/
theorem c8_witness :
    (({ status := 500, hasContent := true, json := Except.error "x" } : EmailsResponse)).status ≠ 200 ∧
    list_emails (Except.ok { status := 500, hasContent := true, json := Except.error "x" }) = [] :=
  ⟨by decide, c8_list_emails_total.2.1 _ (by decide)⟩

/-! ## C1: round-robin registration -/

/-- C1: against a server behaviour with a fixed nonempty pool of size `N`,
the `k`-th successive `register_account` call (counting from any starting
state) succeeds and stores the email and account id of the account at
position `(start + k) % N`; over `N` consecutive calls these positions are
pairwise distinct and cover every position of the pool, so every account is
selected exactly once before any repeats. -/
theorem c1_round_robin (pages : List PageResult) (cs0 : ClassState) (s0 : Session)
    (h : fetchAccounts pages ≠ []) :
    (∀ k, (register_account (registerIter pages k (cs0, s0)).1
             (registerIter pages k (cs0, s0)).2 pages).2.2 = true ∧
       ∃ hk : (cs0.account_index + k) % (fetchAccounts pages).length
                < (fetchAccounts pages).length,
         (register_account (registerIter pages k (cs0, s0)).1
            (registerIter pages k (cs0, s0)).2 pages).2.1 =
           { email := ((fetchAccounts pages).get
               ⟨(cs0.account_index + k) % (fetchAccounts pages).length, hk⟩).email,
             account_id := ((fetchAccounts pages).get
               ⟨(cs0.account_index + k) % (fetchAccounts pages).length, hk⟩).id }) ∧
    ((List.range (fetchAccounts pages).length).map
        (fun k => (cs0.account_index + k) % (fetchAccounts pages).length)).Nodup ∧
    (∀ p, p < (fetchAccounts pages).length →
        p ∈ (List.range (fetchAccounts pages).length).map
          (fun k => (cs0.account_index + k) % (fetchAccounts pages).length)) := by
  have h0 : (fetchAccounts pages).length ≠ 0 := by
    simpa [List.length_eq_zero] using h
  have hpos : 0 < (fetchAccounts pages).length := Nat.pos_of_ne_zero h0
  refine ⟨?_, ?_, ?_⟩
  · intro k
    have hstep := register_account_spec (registerIter pages k (cs0, s0)).1
      (registerIter pages k (cs0, s0)).2 pages h0
    have hidx : (registerIter pages k (cs0, s0)).1.account_index % (fetchAccounts pages).length
        = (cs0.account_index + k) % (fetchAccounts pages).length :=
      registerIter_index pages h0 k (cs0, s0)
    rw [hstep]
    refine ⟨rfl, ?_⟩
    rw [← hidx]
    exact ⟨Nat.mod_lt _ hpos, rfl⟩
  · refine List.Nodup.map_on ?_ (List.nodup_range _)
    intro x hx y hy hxy
    have hx' : x < (fetchAccounts pages).length := List.mem_range.mp hx
    have hy' : y < (fetchAccounts pages).length := List.mem_range.mp hy
    have h1 : x ≡ y [MOD (fetchAccounts pages).length] :=
      Nat.ModEq.add_left_cancel' cs0.account_index hxy
    have h2 : x % (fetchAccounts pages).length = y % (fetchAccounts pages).length := h1
    rwa [Nat.mod_eq_of_lt hx', Nat.mod_eq_of_lt hy'] at h2
  · intro p hp
    have ha : cs0.account_index % (fetchAccounts pages).length < (fetchAccounts pages).length :=
      Nat.mod_lt _ hpos
    refine List.mem_map.mpr
      ⟨(p + (fetchAccounts pages).length - cs0.account_index % (fetchAccounts pages).length)
          % (fetchAccounts pages).length,
       List.mem_range.mpr (Nat.mod_lt _ hpos), ?_⟩
    conv_lhs => rw [← Nat.mod_add_mod]
    rw [Nat.add_mod_mod]
    have hsum : cs0.account_index % (fetchAccounts pages).length +
        (p + (fetchAccounts pages).length - cs0.account_index % (fetchAccounts pages).length)
          = p + (fetchAccounts pages).length := by
      omega
    rw [hsum, Nat.add_mod_right, Nat.mod_eq_of_lt hp]

/-- Witness for C1: two-account pool, starting index 3; the two selected
positions within one cycle are distinct. -/
theorem c1_witness :
    fetchAccounts demoPages ≠ [] ∧
    ((List.range (fetchAccounts demoPages).length).map
        (fun k => (({ account_index := 3, accounts_cache := [] } : ClassState).account_index + k)
          % (fetchAccounts demoPages).length)).Nodup :=
  ⟨by decide, (c1_round_robin demoPages { account_index := 3, accounts_cache := [] }
      { email := none, account_id := none } (by decide)).2.1⟩

/-! ## Order lemmas for the sort key -/

/-- The code-point comparison is total. -/
theorem charsLe_total : ∀ a b : List Char, charsLe a b = true ∨ charsLe b a = true := by
  intro a
  induction a with
  | nil => intro b; left; rfl
  | cons x xs ih =>
    intro b
    cases b with
    | nil => right; rfl
    | cons y ys =>
      by_cases h1 : x < y
      · left; simp [charsLe, h1]
      · by_cases h2 : y < x
        · right; simp [charsLe, h2]
        · rcases ih ys with h | h
          · left; simp [charsLe, h1, h2, h]
          · right; simp [charsLe, h1, h2, h]

/-- The code-point comparison is transitive. -/
theorem charsLe_trans : ∀ a b c : List Char,
    charsLe a b = true → charsLe b c = true → charsLe a c = true := by
  intro a
  induction a with
  | nil => intro b c _ _; rfl
  | cons x xs ih =>
    intro b c hab hbc
    cases b with
    | nil => exact absurd hab (by simp [charsLe])
    | cons y ys =>
      cases c with
      | nil => exact absurd hbc (by simp [charsLe])
      | cons z zs =>
        rcases lt_trichotomy x y with h1 | h1 | h1
        · rcases lt_trichotomy y z with h2 | h2 | h2
          · simp [charsLe, lt_trans h1 h2]
          · subst h2; simp [charsLe, h1]
          · exact absurd hbc (by simp [charsLe, h2, asymm h2])
        · subst h1
          have hab' : charsLe xs ys = true := by simpa [charsLe, lt_irrefl] using hab
          rcases lt_trichotomy x z with h2 | h2 | h2
          · simp [charsLe, h2]
          · subst h2
            have hbc' : charsLe ys zs = true := by simpa [charsLe, lt_irrefl] using hbc
            simp [charsLe, lt_irrefl, ih ys zs hab' hbc']
          · exact absurd hbc (by simp [charsLe, h2, asymm h2])
        · exact absurd hab (by simp [charsLe, h1, asymm h1])

/-- Totality of the string comparison. -/
theorem strLe_total (a b : String) : strLe a b = true ∨ strLe b a = true :=
  charsLe_total a.data b.data

/-- Transitivity of the string comparison. -/
theorem strLe_trans {a b c : String} :
    strLe a b = true → strLe b c = true → strLe a c = true :=
  charsLe_trans a.data b.data c.data

/-! ## The sort is a descending stable sort -/

/-- Inserting is a permutation of consing. -/
theorem insertByKeyDesc_perm (m : Message) (l : List Message) :
    (insertByKeyDesc m l).Perm (m :: l) := by
  induction l with
  | nil => exact List.Perm.refl _
  | cons y ys ih =>
    by_cases hc : strLe (msgKey y) (msgKey m) = true
    · simp [insertByKeyDesc, hc]
    · simp only [insertByKeyDesc, hc, if_false, Bool.false_eq_true]
      exact (ih.cons y).trans (List.Perm.swap m y ys)

/-- Membership in an insertion. -/
theorem mem_insertByKeyDesc {m z : Message} {l : List Message} :
    z ∈ insertByKeyDesc m l ↔ z = m ∨ z ∈ l := by
  rw [(insertByKeyDesc_perm m l).mem_iff]
  simp

/-- Insertion preserves descending-by-key pairwise order. -/
theorem pairwise_insertByKeyDesc (m : Message) (l : List Message)
    (hl : l.Pairwise (fun a b => strLe (msgKey b) (msgKey a) = true)) :
    (insertByKeyDesc m l).Pairwise (fun a b => strLe (msgKey b) (msgKey a) = true) := by
  induction l with
  | nil => simp [insertByKeyDesc]
  | cons y ys ih =>
    rcases List.pairwise_cons.mp hl with ⟨hy, hys⟩
    by_cases hc : strLe (msgKey y) (msgKey m) = true
    · simp only [insertByKeyDesc, hc, if_true]
      refine List.pairwise_cons.mpr ⟨?_, hl⟩
      intro z hz
      rcases List.mem_cons.mp hz with rfl | hz'
      · exact hc
      · exact strLe_trans (hy z hz') hc
    · simp only [insertByKeyDesc, hc, if_false, Bool.false_eq_true]
      refine List.pairwise_cons.mpr ⟨?_, ih hys⟩
      intro z hz
      rcases mem_insertByKeyDesc.mp hz with rfl | hz'
      · rcases strLe_total (msgKey y) (msgKey z) with h | h
        · exact absurd h hc
        · exact h
      · exact hy z hz'

/-- The embedded sort permutes its input. -/
theorem sortEmailsDesc_perm (l : List Message) : (sortEmailsDesc l).Perm l := by
  induction l with
  | nil => exact List.Perm.refl _
  | cons m ms ih =>
    exact (insertByKeyDesc_perm m (sortEmailsDesc ms)).trans (ih.cons m)

/-- The embedded sort is descending by key. -/
theorem sortEmailsDesc_pairwise (l : List Message) :
    (sortEmailsDesc l).Pairwise (fun a b => strLe (msgKey b) (msgKey a) = true) := by
  induction l with
  | nil => simp [sortEmailsDesc]
  | cons m ms ih => exact pairwise_insertByKeyDesc m (sortEmailsDesc ms) ih

/-! ## The scan computes the first code of the non-skipped messages -/

/-- With a pure extractor, the scanning loop returns exactly the first
truthy code among the messages that survive the `since_time` filter, in
list order. -/
theorem scanEmails_pure (ex : String → Option String) (pt : String → Option Int)
    (since : Option Int) :
    ∀ l, scanEmails (fun u => Except.ok (ex u)) pt since l =
      Except.ok (firstCodeSpec ex (l.filter fun m => !shouldSkip pt since m)) := by
  intro l
  induction l with
  | nil => rfl
  | cons m rest ih =>
    rcases hsk : shouldSkip pt since m with _ | _
    · by_cases hct : codeTruthy (ex (msgContent m)) = true
      · simp [scanEmails, hsk, List.filter_cons, firstCodeSpec, hct]
      · simp [scanEmails, hsk, List.filter_cons, firstCodeSpec, hct, ih]
    · simp [scanEmails, hsk, List.filter_cons, ih]

/-- With a pure extractor, a selected email and a nonempty listing,
`fetch_verification_code` returns exactly the first truthy code of the
descending-sorted, `since_time`-filtered messages. -/
theorem fetch_pure_spec (ex : String → Option String) (pt : String → Option Int)
    (s : Session) (resp : Except String EmailsResponse) (since : Option Int)
    (he : isFalsyEmail s.email = false) (hne : list_emails resp ≠ []) :
    fetch_verification_code (fun u => Except.ok (ex u)) pt s resp since =
      Except.ok (firstCodeSpec ex
        ((sortEmailsDesc (list_emails resp)).filter fun m => !shouldSkip pt since m)) := by
  have hemp : (list_emails resp).isEmpty = false := by
    cases hval : list_emails resp with
    | nil => exact absurd hval hne
    | cons a l => rfl
  simp [fetch_verification_code, he, hemp, scanEmails_pure]

/-! ## C3 and C4 -/

/-- C3: messages are scanned in descending order of `received_time`
compared as strings (the sort permutes the inbox and is pairwise descending
on keys; a missing timestamp has key `""`, hence sorts last); the scan
extracts from `body ++ body_preview` and returns the first non-empty code
newest-first; concretely, when the newest message yields no code and an
older one does, the older message's code is returned. -/
theorem c3_newest_first_fallback :
    (∀ emails : List Message, (sortEmailsDesc emails).Perm emails) ∧
    (∀ emails : List Message,
        (sortEmailsDesc emails).Pairwise (fun a b => strLe (msgKey b) (msgKey a) = true)) ∧
    (∀ m : Message, m.received_time = none → msgKey m = "") ∧
    (∀ (ex : String → Option String) (pt : String → Option Int) (s : Session)
        (resp : Except String EmailsResponse),
        isFalsyEmail s.email = false → list_emails resp ≠ [] →
        fetch_verification_code (fun u => Except.ok (ex u)) pt s resp none =
          Except.ok (firstCodeSpec ex (sortEmailsDesc (list_emails resp)))) ∧
    (fetch_verification_code (fun u => Except.ok (demoExtract u)) (fun _ => none)
        { email := some "u", account_id := none } demoResp none = Except.ok (some "123456")) := by
  refine ⟨sortEmailsDesc_perm, sortEmailsDesc_pairwise, ?_, ?_, ?_⟩
  · intro m hm
    simp [msgKey, hm]
  · intro ex pt s resp he hne
    have h := fetch_pure_spec ex pt s resp none he hne
    simpa [shouldSkip, List.filter_true] using h
  · rfl

/-- Witness for C3: the concrete two-message inbox, where the fetch agrees
with the first-code specification over the sorted listing. -/
theorem c3_witness :
    isFalsyEmail (some "u") = false ∧ list_emails demoResp ≠ [] ∧
    fetch_verification_code (fun u => Except.ok (demoExtract u)) (fun _ => none)
        { email := some "u", account_id := none } demoResp none =
      Except.ok (firstCodeSpec demoExtract (sortEmailsDesc (list_emails demoResp))) :=
  ⟨by decide, by decide,
   c3_newest_first_fallback.2.2.2.1 demoExtract (fun _ => none)
     { email := some "u", account_id := none } demoResp (by decide) (by decide)⟩

/-- C4: with a `since_time`, exactly those messages are skipped whose
`received_time` is present, truthy and parses to a timestamp strictly
earlier than `since_time`; a missing or unparseable timestamp never skips
(and the scan stays a total computation); the scan equals the first-code
specification over the filtered list, and on the concrete `T1 < T2 < T3`
inbox with `since_time = T2` the scanned messages are exactly `T3, T2`,
newest first. -/
theorem c4_since_time_filter :
    (∀ (pt : String → Option Int), pt "" = none → ∀ (t : Int) (m : Message),
        (shouldSkip pt (some t) m = true ↔
          ∃ rt mt, m.received_time = some rt ∧ pt rt = some mt ∧ mt < t)) ∧
    (∀ (pt : String → Option Int) (t : Int) (m : Message), m.received_time = none →
        shouldSkip pt (some t) m = false) ∧
    (∀ (pt : String → Option Int) (t : Int) (m : Message) (rt : String),
        m.received_time = some rt → pt rt = none → shouldSkip pt (some t) m = false) ∧
    (∀ (ex : String → Option String) (pt : String → Option Int) (t : Int) (l : List Message),
        scanEmails (fun u => Except.ok (ex u)) pt (some t) l =
          Except.ok (firstCodeSpec ex (l.filter fun m => !shouldSkip pt (some t) m))) ∧
    (∀ (ex : String → Option String) (pt : String → Option Int) (s : Session)
        (resp : Except String EmailsResponse) (t : Int),
        isFalsyEmail s.email = false → list_emails resp ≠ [] →
        fetch_verification_code (fun u => Except.ok (ex u)) pt s resp (some t) =
          Except.ok (firstCodeSpec ex
            ((sortEmailsDesc (list_emails resp)).filter fun m => !shouldSkip pt (some t) m))) ∧
    ((sortEmailsDesc [demoT1, demoT2, demoT3]).filter
        (fun m => !shouldSkip demoParse (some 2) m) = [demoT3, demoT2]) := by
  refine ⟨?_, ?_, ?_, fun ex pt t l => scanEmails_pure ex pt (some t) l,
          fun ex pt s resp t he hne => fetch_pure_spec ex pt s resp (some t) he hne,
          by decide⟩
  · intro pt hpt t m
    constructor
    · intro hsk
      rcases hrt : m.received_time with _ | rt
      · simp [shouldSkip, hrt] at hsk
      · rcases hpt' : pt rt with _ | mt
        · simp [shouldSkip, hrt, hpt'] at hsk
        · by_cases hemp : rt.isEmpty = true
          · simp [shouldSkip, hrt, hemp] at hsk
          · simp [shouldSkip, hrt, hemp, hpt'] at hsk
            exact ⟨rt, mt, rfl, hpt', hsk⟩
    · rintro ⟨rt, mt, hrt, hptv, hlt⟩
      have hemp : rt.isEmpty = false := by
        cases hie : rt.isEmpty
        · rfl
        · rw [(String.isEmpty_iff rt).mp hie, hpt] at hptv
          exact absurd hptv (by simp)
      simp [shouldSkip, hrt, hemp, hptv, hlt]
  · intro pt t m hm
    simp [shouldSkip, hm]
  · intro pt t m rt hrt hptv
    by_cases hemp : rt.isEmpty = true
    · simp [shouldSkip, hrt, hemp]
    · simp [shouldSkip, hrt, hemp, hptv]

/-- Witness for C4: the three stamped messages against `since_time = T2`
with an extractor that never finds a code. -/
theorem c4_witness :
    isFalsyEmail (some "u") = false ∧ list_emails demoSinceResp ≠ [] ∧
    fetch_verification_code (fun u => Except.ok ((fun _ => (none : Option String)) u))
        demoParse { email := some "u", account_id := none } demoSinceResp (some 2) =
      Except.ok (firstCodeSpec (fun _ => (none : Option String))
        ((sortEmailsDesc (list_emails demoSinceResp)).filter
          (fun m => !shouldSkip demoParse (some 2) m))) :=
  ⟨by decide, by decide,
   c4_since_time_filter.2.2.2.2.1 (fun _ => (none : Option String)) demoParse
     { email := some "u", account_id := none } demoSinceResp 2 (by decide) (by decide)⟩

/-! ## Polling loop lemmas -/

/-- When every attempt in the window fails, the loop exhausts its budget:
it performs exactly `rem` fetch calls and `rem - 1` sleeps and returns no
code. -/
theorem pollLoop_all_falsy (results : Nat → Option String) (interval : Int)
    (hi : 0 ≤ interval) :
    ∀ (rem attempt sleeps calls : Nat), 1 ≤ rem →
      (∀ i, attempt ≤ i → i < attempt + rem → codeTruthy (results i) = false) →
      pollLoop results interval attempt sleeps calls rem =
        Except.ok (none, sleeps + (rem - 1), calls + rem) := by
  intro rem
  induction rem with
  | zero =>
    intro attempt sleeps calls h1 _
    exact absurd h1 (by omega)
  | succ r ih =>
    intro attempt sleeps calls _ hall
    have hfirst : codeTruthy (results attempt) = false := hall attempt le_rfl (by omega)
    cases r with
    | zero =>
      conv_lhs => rw [pollLoop]
      simp [hfirst]
    | succ r' =>
      have hrec := ih (attempt + 1) (sleeps + 1) (calls + 1) (by omega)
        (fun i hia hib => hall i (by omega) (by omega))
      conv_lhs => rw [pollLoop]
      simp only [hfirst, Bool.false_eq_true, if_false, Nat.succ_ne_zero, not_lt.mpr hi, hrec]
      simp only [Except.ok.injEq, Prod.mk.injEq, Nat.add_sub_cancel]
      exact ⟨trivial, by omega, by omega⟩

/-- When the first truthy attempt is at offset `k` inside the budget, the
loop returns that attempt's code after exactly `k + 1` fetch calls and `k`
sleeps. -/
theorem pollLoop_first_truthy (results : Nat → Option String) (interval : Int)
    (hi : 0 ≤ interval) :
    ∀ (k rem attempt sleeps calls : Nat), k < rem →
      (∀ i, attempt ≤ i → i < attempt + k → codeTruthy (results i) = false) →
      codeTruthy (results (attempt + k)) = true →
      pollLoop results interval attempt sleeps calls rem =
        Except.ok (results (attempt + k), sleeps + k, calls + k + 1) := by
  intro k
  induction k with
  | zero =>
    intro rem attempt sleeps calls hk _ htr
    cases rem with
    | zero => exact absurd hk (by omega)
    | succ r =>
      simp only [Nat.add_zero] at htr
      conv_lhs => rw [pollLoop]
      simp [htr]
  | succ n ih =>
    intro rem attempt sleeps calls hk hall htr
    cases rem with
    | zero => exact absurd hk (by omega)
    | succ r =>
      have hfirst : codeTruthy (results attempt) = false := hall attempt le_rfl (by omega)
      have hrne : r ≠ 0 := by omega
      have hrec := ih r (attempt + 1) (sleeps + 1) (calls + 1) (by omega)
        (fun i hia hib => hall i (by omega) (by omega))
        (by
          rw [show attempt + 1 + n = attempt + (n + 1) from by omega]
          exact htr)
      conv_lhs => rw [pollLoop]
      simp only [hfirst, Bool.false_eq_true, if_false, hrne, not_lt.mpr hi, hrec]
      simp only [Except.ok.injEq, Prod.mk.injEq]
      exact ⟨congrArg results (by omega), by omega, by omega⟩

/-- Any normal loop result performed between `1` and `rem` fetch calls and
one fewer sleeps than calls. -/
theorem pollLoop_ok_shape (results : Nat → Option String) (interval : Int) :
    ∀ (rem attempt sleeps calls : Nat) (v : Option String) (sl ca : Nat),
      pollLoop results interval attempt sleeps calls rem = Except.ok (v, sl, ca) →
      (rem = 0 ∧ v = none ∧ sl = sleeps ∧ ca = calls) ∨
      (calls + 1 ≤ ca ∧ ca ≤ calls + rem ∧ sl + calls + 1 = sleeps + ca) := by
  intro rem
  induction rem with
  | zero =>
    intro attempt sleeps calls v sl ca h
    rw [pollLoop] at h
    simp only [Except.ok.injEq, Prod.mk.injEq] at h
    exact Or.inl ⟨rfl, h.1.symm, h.2.1.symm, h.2.2.symm⟩
  | succ r ih =>
    intro attempt sleeps calls v sl ca h
    rw [pollLoop] at h
    by_cases hc : codeTruthy (results attempt) = true
    · rw [if_pos hc] at h
      simp only [Except.ok.injEq, Prod.mk.injEq] at h
      refine Or.inr ⟨?_, ?_, ?_⟩ <;> omega
    · rw [if_neg hc] at h
      by_cases hr : r = 0
      · rw [if_pos hr] at h
        simp only [Except.ok.injEq, Prod.mk.injEq] at h
        refine Or.inr ⟨?_, ?_, ?_⟩ <;> omega
      · rw [if_neg hr] at h
        by_cases hiv : interval < 0
        · rw [if_pos hiv] at h
          exact absurd h (by simp)
        · rw [if_neg hiv] at h
          rcases ih (attempt + 1) (sleeps + 1) (calls + 1) v sl ca h with
            ⟨hr0, _, _, _⟩ | ⟨h1, h2, h3⟩
          · exact absurd hr0 hr
          · refine Or.inr ⟨?_, ?_, ?_⟩ <;> omega

/-- With a nonnegative interval the loop always terminates normally. -/
theorem pollLoop_ok (results : Nat → Option String) (interval : Int) (hi : 0 ≤ interval) :
    ∀ (rem attempt sleeps calls : Nat), ∃ out,
      pollLoop results interval attempt sleeps calls rem = Except.ok out := by
  intro rem
  induction rem with
  | zero => intro a s c; exact ⟨(none, s, c), rfl⟩
  | succ r ih =>
    intro a s c
    by_cases hc : codeTruthy (results a) = true
    · refine ⟨(results a, s, c + 1), ?_⟩
      conv_lhs => rw [pollLoop]
      simp [hc]
    · by_cases hr : r = 0
      · refine ⟨(none, s, c + 1), ?_⟩
        conv_lhs => rw [pollLoop]
        simp [hc, hr]
      · obtain ⟨out, hout⟩ := ih (a + 1) (s + 1) (c + 1)
        refine ⟨out, ?_⟩
        conv_lhs => rw [pollLoop]
        simp [hc, hr, not_lt.mpr hi, hout]

/-! ## C6 and C7 -/

/-- C6: with a selected email and a positive interval, `poll_for_code`
performs between `1` and `max_retries = max(1, timeout // interval)` fetch
calls with exactly one fewer sleeps than calls (so it never sleeps after
the last attempt); if every attempt within the budget fails it returns
`none` after exactly `max_retries` calls and `max_retries - 1` sleeps; and
it returns the code of the first truthy attempt `j` immediately, after `j`
calls and `j - 1` sleeps. Instantiated at `timeout = 10`, `interval = 5`
this gives at most `2` attempts and exactly one sleep when both fail. -/
theorem c6_poll_schedule (s : Session) (results : Nat → Option String)
    (timeout interval : Int) (hs : isFalsyEmail s.email = false) (hi : 0 < interval) :
    (∀ v sleeps calls,
        poll_for_code s results timeout interval = Except.ok (v, sleeps, calls) →
        1 ≤ calls ∧ calls ≤ (max 1 (Int.fdiv timeout interval)).toNat ∧ sleeps + 1 = calls) ∧
    ((∀ i, 1 ≤ i → i ≤ (max 1 (Int.fdiv timeout interval)).toNat →
        codeTruthy (results i) = false) →
      poll_for_code s results timeout interval =
        Except.ok (none, (max 1 (Int.fdiv timeout interval)).toNat - 1,
          (max 1 (Int.fdiv timeout interval)).toNat)) ∧
    (∀ j, 1 ≤ j → j ≤ (max 1 (Int.fdiv timeout interval)).toNat →
        (∀ i, 1 ≤ i → i < j → codeTruthy (results i) = false) →
        codeTruthy (results j) = true →
        poll_for_code s results timeout interval = Except.ok (results j, j - 1, j)) := by
  have hne : interval ≠ 0 := by omega
  have hM : 1 ≤ (max 1 (Int.fdiv timeout interval)).toNat := by
    have h1 : (1 : Int) ≤ max 1 (Int.fdiv timeout interval) := le_max_left _ _
    omega
  refine ⟨?_, ?_, ?_⟩
  · intro v sleeps calls h
    simp only [poll_for_code, hs, Bool.false_eq_true, if_false, hne] at h
    rcases pollLoop_ok_shape results interval _ 1 0 0 v sleeps calls h with
      ⟨hr0, _, _, _⟩ | ⟨h1, h2, h3⟩
    · omega
    · refine ⟨?_, ?_, ?_⟩ <;> omega
  · intro hall
    have h := pollLoop_all_falsy results interval (le_of_lt hi)
      ((max 1 (Int.fdiv timeout interval)).toNat) 1 0 0 hM
      (fun i hia hib => hall i hia (by omega))
    simpa [poll_for_code, hs, hne] using h
  · intro j hj1 hj2 hwin htr
    have h := pollLoop_first_truthy results interval (le_of_lt hi) (j - 1)
      ((max 1 (Int.fdiv timeout interval)).toNat) 1 0 0 (by omega)
      (fun i hia hib => hwin i hia (by omega))
      (by
        rw [show 1 + (j - 1) = j from by omega]
        exact htr)
    rw [show 1 + (j - 1) = j from by omega] at h
    simpa [poll_for_code, hs, hne, show (j - 1) + 1 = j from by omega] using h

/-- Witness for C6 at `timeout = 10`, `interval = 5` with every attempt
failing: two fetch calls, one sleep, no code. -/
theorem c6_witness :
    isFalsyEmail (some "u") = false ∧ (0 : Int) < 5 ∧
    poll_for_code { email := some "u", account_id := none } (fun _ => none) 10 5 =
      Except.ok (none, 1, 2) := by
  refine ⟨by decide, by decide, ?_⟩
  have h := (c6_poll_schedule { email := some "u", account_id := none } (fun _ => none) 10 5
      (by decide) (by decide)).2.1 (fun i _ _ => rfl)
  have hM : (max 1 (Int.fdiv (10 : Int) 5)).toNat = 2 := by decide
  rw [hM] at h
  exact h

/-- C7 (amended: the interval must be positive): a failing accounts fetch
is converted into a `false` return of `register_account`;
`fetch_verification_code` returns normally for every extractor (including a
raising one), parser, listing response (including a raised request) and
filter; and `poll_for_code` with a positive interval returns normally for
every fetch outcome sequence. With `interval = 0` the claim fails, see the
counterexample. -/
theorem c7_no_exception_escapes :
    (∀ (cs : ClassState) (s : Session) (rest : List PageResult),
        register_account cs s (PageResult.err :: rest) =
          ({ cs with accounts_cache := [] }, s, false)) ∧
    (∀ (extract : String → Except String (Option String)) (parseTime : String → Option Int)
        (s : Session) (resp : Except String EmailsResponse) (since : Option Int),
        ∃ v, fetch_verification_code extract parseTime s resp since = Except.ok v) ∧
    (∀ (s : Session) (results : Nat → Option String) (timeout interval : Int),
        0 < interval →
        ∃ out, poll_for_code s results timeout interval = Except.ok out) := by
  refine ⟨?_, ?_, ?_⟩
  · intro cs s rest
    unfold register_account
    rw [dif_pos (show (fetchAccounts (PageResult.err :: rest)).length = 0 from rfl)]
    rfl
  · intro extract parseTime s resp since
    unfold fetch_verification_code
    by_cases he : isFalsyEmail s.email = true
    · rw [if_pos he]
      exact ⟨none, rfl⟩
    · rw [if_neg he]
      rcases hbig : (if (list_emails resp).isEmpty = true then Except.ok none
          else scanEmails extract parseTime since (sortEmailsDesc (list_emails resp))) with e | v
      · exact ⟨none, rfl⟩
      · exact ⟨v, rfl⟩
  · intro s results timeout interval hi
    by_cases hs : isFalsyEmail s.email = true
    · exact ⟨(none, 0, 0), by simp [poll_for_code, hs]⟩
    · have hne : interval ≠ 0 := by omega
      obtain ⟨out, hout⟩ := pollLoop_ok results interval (by omega)
        ((max 1 (Int.fdiv timeout interval)).toNat) 1 0 0
      exact ⟨out, by simp [poll_for_code, hs, hne, hout]⟩

/-- Counterexample to C7 as stated: `poll_for_code` with a selected email
and `interval = 0` evaluates `timeout // interval` and the
`ZeroDivisionError` escapes the public operation uncaught. -/
theorem c7_counterexample :
    poll_for_code { email := some "user", account_id := none } (fun _ => none) 120 0 =
      Except.error "ZeroDivisionError" := rfl

/-- Witness for C7 (amended) at a positive interval. -/
theorem c7_witness :
    (0 : Int) < 5 ∧
    ∃ out, poll_for_code { email := some "u", account_id := none } (fun _ => none) 10 5 =
      Except.ok out :=
  ⟨by decide, c7_no_exception_escapes.2.2 _ _ 10 5 (by decide)⟩

end OutlookMail
